import Mathlib

/-!
Shallow embedding of the blueprint tree construction and status-filtering
engine of `src/extension.ts` (the VS Code extension LeanBlueprintCopilot).

The embedded pieces of the source are:
* `BlueprintNode` (a subclass of `vscode.TreeItem`) and its constructor,
  including `calculateFormalizationStatus`;
* `buildTree` (the JSONL record to tree-node conversion inside `activate`);
* `BlueprintTreeDataProvider.filterNodesByStatus` together with the
  `statusFilter` set;
* `loadBlueprintTreeFromJsonl` and the `if (treeNodes) refresh` call sites
  in `activate`.

Modelling conventions (JavaScript to Lean):
* A JS field that may be missing is an `Option`; `null` and `undefined` are
  collapsed to `none` except for `label`, where the code's `!== null` test
  distinguishes them, so `label` gets a dedicated three-valued type.
* JS string truthiness (`""` is falsy) is made explicit (`strTruthy`,
  `LabelField.truthyStr`).
* `JSON.stringify(info, null, 2)` of the record with `children`/`proof`
  deleted is modelled structurally as `Tooltip.itemInfo (stripInfo n)`:
  the serialized text is a function of exactly that stripped record.
* The `vscode` enums and objects used (`TreeItemCollapsibleState`,
  `ThemeIcon`, command descriptors) are modelled as small inductive types.
-/

/-- JS value of the `label` field: the property may be missing
(`undefined`), explicitly `null`, or a string.  `buildTree` filters with
`n.label !== null`, which distinguishes `null` from `undefined`. -/
inductive LabelField where
  | absent
  | null
  | str (s : String)
deriving DecidableEq

/-- JS `||`-truthiness of `label`: only a non-empty string is truthy;
returns the string when truthy. -/
def LabelField.truthyStr : LabelField → Option String
  | .str s => if s = "" then Option.none else some s
  | _ => Option.none

/-- JS truthiness of an optional string field: present and non-empty. -/
def strTruthy : Option String → Bool
  | some s => s != ""
  | Option.none => false

/-- JS `a || b` over optional string fields: the first truthy value. -/
def jsOrStr (a b : Option String) : Option String :=
  match a with
  | some s => if s = "" then b else some s
  | Option.none => b

/-- The `range.start` object of a `lean_declarations` entry. -/
structure DeclPos where
  line : Option Int
deriving DecidableEq

/-- The `range` object of a `lean_declarations` entry. -/
structure DeclRange where
  start : Option DeclPos
deriving DecidableEq

/-- One `lean_declarations` entry: `full_name`, `real_file`, `range`. -/
structure LeanDecl where
  full_name : String
  real_file : Option String
  range : Option DeclRange
deriving DecidableEq

/-- A parsed JSONL record (`BlueprintItem`).  Only the fields the extension
reads are modelled.  `leanok` and `fully_proved` are the boolean-ish flags,
modelled by their truth value. -/
inductive BlueprintItem where
  | mk
    (label : LabelField)
    (title : Option String)
    (stmt_type : Option String)
    (processed_text : Option String)
    (children : Option (List BlueprintItem))
    (proof : Option BlueprintItem)
    (lean_declarations : Option (List LeanDecl))
    (lean_names : Option (List String))
    (leanok : Bool)
    (fully_proved : Bool)

def BlueprintItem.label : BlueprintItem → LabelField
  | .mk l _ _ _ _ _ _ _ _ _ => l

def BlueprintItem.title : BlueprintItem → Option String
  | .mk _ t _ _ _ _ _ _ _ _ => t

def BlueprintItem.stmt_type : BlueprintItem → Option String
  | .mk _ _ st _ _ _ _ _ _ _ => st

def BlueprintItem.processed_text : BlueprintItem → Option String
  | .mk _ _ _ pt _ _ _ _ _ _ => pt

def BlueprintItem.children : BlueprintItem → Option (List BlueprintItem)
  | .mk _ _ _ _ ch _ _ _ _ _ => ch

def BlueprintItem.proof : BlueprintItem → Option BlueprintItem
  | .mk _ _ _ _ _ pf _ _ _ _ => pf

def BlueprintItem.lean_declarations : BlueprintItem → Option (List LeanDecl)
  | .mk _ _ _ _ _ _ ds _ _ _ => ds

def BlueprintItem.lean_names : BlueprintItem → Option (List String)
  | .mk _ _ _ _ _ _ _ ns _ _ => ns

def BlueprintItem.leanok : BlueprintItem → Bool
  | .mk _ _ _ _ _ _ _ _ ok _ => ok

def BlueprintItem.fully_proved : BlueprintItem → Bool
  | .mk _ _ _ _ _ _ _ _ _ fp => fp

/-- Model of `const info = { ...n }; delete info.children; delete info.proof;`
(the payload serialized into the node tooltip). -/
def stripInfo : BlueprintItem → BlueprintItem
  | .mk l t st pt _ _ ds ns ok fp =>
    .mk l t st pt Option.none Option.none ds ns ok fp

/-- Model of `vscode.TreeItemCollapsibleState`. -/
inductive CollapsibleState where
  | none
  | collapsed
  | expanded
deriving DecidableEq

/-- Model of `vscode.ThemeIcon` as used by the extension: an icon id, and whether the
warning foreground color is attached. -/
inductive IconPath where
  | themeIcon (id : String) (warningColor : Bool)
deriving DecidableEq

/-- The command descriptors the embedded code attaches to tree items:
`vscode.open` on a file with a 1-based line fragment, and
`workbench.action.findInFiles` with a query. -/
inductive NavCommand where
  | openFile (file : String) (line : Int)
  | findInFiles (query : String)
deriving DecidableEq

/-- A tooltip value: either a plain string (declaration leaves) or the
stringified stripped record (statement nodes). -/
inductive Tooltip where
  | str (s : String)
  | itemInfo (info : BlueprintItem)

/-- The non-recursive fields of a `BlueprintNode` (a `vscode.TreeItem`
subclass); the recursive `children` list lives in `BlueprintNode` itself
because Lean structures cannot be recursive. -/
structure NodeData where
  label : String
  collapsibleState : CollapsibleState
  blueprintData : Option BlueprintItem
  isFormalized : Bool
  contextValue : String
  iconPath : Option IconPath
  description : Option String
  command : Option NavCommand
  tooltip : Option Tooltip

/-- Model of `BlueprintNode`: its `TreeItem` data plus its `children` array. -/
inductive BlueprintNode where
  | mk (data : NodeData) (children : List BlueprintNode)

def BlueprintNode.data : BlueprintNode → NodeData
  | .mk d _ => d

def BlueprintNode.children : BlueprintNode → List BlueprintNode
  | .mk _ c => c

def BlueprintNode.isFormalized (b : BlueprintNode) : Bool :=
  b.data.isFormalized

def BlueprintNode.label (b : BlueprintNode) : String :=
  b.data.label

/-- Setter for `filteredNode.description = ...` -/
def BlueprintNode.withDescription : BlueprintNode → Option String → BlueprintNode
  | .mk d c, v => .mk { d with description := v } c

/-- Setter for `filteredNode.iconPath = ...` -/
def BlueprintNode.withIconPath : BlueprintNode → Option IconPath → BlueprintNode
  | .mk d c, v => .mk { d with iconPath := v } c

/-- Setter for `node.command = ...` -/
def BlueprintNode.withCommand : BlueprintNode → Option NavCommand → BlueprintNode
  | .mk d c, v => .mk { d with command := v } c

/-- Setter for `node.tooltip = ...` -/
def BlueprintNode.withTooltip : BlueprintNode → Option Tooltip → BlueprintNode
  | .mk d c, v => .mk { d with tooltip := v } c

/-- Source `BlueprintNode.calculateFormalizationStatus`:
`!!(data.leanok || data.fully_proved ||
   (data.lean_declarations && data.lean_declarations.length > 0))`. -/
def calculateFormalizationStatus (data : BlueprintItem) : Bool :=
  data.leanok || data.fully_proved ||
    (match data.lean_declarations with
     | some ds => decide (ds.length > 0)
     | Option.none => false)

/-- The formalization status the constructor derives:
`blueprintData ? this.calculateFormalizationStatus(blueprintData) : false`. -/
def calcOpt : Option BlueprintItem → Bool
  | some d => calculateFormalizationStatus d
  | Option.none => false

/-- The `BlueprintNode` constructor.  `super(label, children.length > 0 ?
collapsibleState : None)` forces leaf nodes to be non-expandable; then
`isFormalized`, `contextValue` and the status icon are derived from
`blueprintData`. -/
def mkBlueprintNode (label : String) (children : List BlueprintNode)
    (collapsibleState : CollapsibleState)
    (blueprintData : Option BlueprintItem) : BlueprintNode :=
  let isF := calcOpt blueprintData
  .mk
    { label := label
      collapsibleState :=
        if children.length > 0 then collapsibleState else CollapsibleState.none
      blueprintData := blueprintData
      isFormalized := isF
      contextValue := if isF then "formalizedNode" else "unformalizedNode"
      iconPath :=
        match blueprintData with
        | some d =>
          if strTruthy d.stmt_type then
            some (if isF then IconPath.themeIcon "check" false
                  else IconPath.themeIcon "circle-outline" true)
          else Option.none
        | Option.none => Option.none
      description := Option.none
      command := Option.none
      tooltip := Option.none }
    children

/-- The guard on a `lean_declarations` entry:
`decl.real_file && decl.range && decl.range.start &&
typeof decl.range.start.line === 'number'`; yields the file and the
zero-based line when it passes. -/
def declTarget (d : LeanDecl) : Option (String × Int) :=
  match d.real_file with
  | some f =>
    if f = "" then Option.none
    else
      match d.range with
      | some r =>
        match r.start with
        | some s =>
          match s.line with
          | some ln => some (f, ln)
          | Option.none => Option.none
        | Option.none => Option.none
      | Option.none => Option.none
  | Option.none => Option.none

/-- The synthetic leaf node built for a qualifying declaration entry:
label `"Lean: " + full_name`, no children, collapsible state `None`,
command `vscode.open` on the file with fragment `L(line+1)`, tooltip
`real_file + ":L" + (line+1)`. -/
def mkDeclLeaf (full_name : String) (f : String) (ln : Int) : BlueprintNode :=
  ((mkBlueprintNode ("Lean: " ++ full_name) [] CollapsibleState.none
      Option.none).withCommand
    (some (NavCommand.openFile f (ln + 1)))).withTooltip
    (some (Tooltip.str (f ++ ":L" ++ toString (ln + 1))))

/-- The `n.lean_declarations.forEach` loop body: one leaf per entry passing
the guard, entries failing it are skipped. -/
def declLeafNodes (ds : List LeanDecl) : List BlueprintNode :=
  ds.filterMap fun d =>
    match declTarget d with
    | some (f, ln) => some (mkDeclLeaf d.full_name f ln)
    | Option.none => Option.none

mutual

/-- Source `buildTree` from `activate`:
`nodes.filter((n) => n.label !== null).map((n) => ...)`.  Note the filter
drops only records whose `label` is literally `null`; records with an
absent (`undefined`) label pass the `!== null` test. -/
def buildTree : List BlueprintItem → List BlueprintNode
  | [] => []
  | n :: rest =>
    if n.label = LabelField.null then buildTree rest
    else buildNode n :: buildTree rest

/-- The body of the `.map` callback in `buildTree`. -/
def buildNode : BlueprintItem → BlueprintNode
  | .mk lbl title st pt ch pf decls names ok fp =>
    let n : BlueprintItem := .mk lbl title st pt ch pf decls names ok fp
    let label :=
      (jsOrStr title (jsOrStr lbl.truthyStr (jsOrStr st pt))).getD "Item"
    let proofPart : List BlueprintNode :=
      match pf with
      | some p => buildTree [p]
      | Option.none => []
    let childPart : List BlueprintNode :=
      match ch with
      | some cs => buildTree cs
      | Option.none => []
    let declPart : List BlueprintNode :=
      match decls with
      | some ds => declLeafNodes ds
      | Option.none => []
    let children := proofPart ++ childPart ++ declPart
    let collapsibleState :=
      if children.length > 0 then CollapsibleState.collapsed
      else CollapsibleState.none
    let node := mkBlueprintNode label children collapsibleState (some n)
    let node :=
      match names with
      | some (x :: xs) =>
        node.withDescription (some ("Lean: " ++ String.intercalate ", " (x :: xs)))
      | _ => node
    let node :=
      match lbl.truthyStr with
      | some s => node.withCommand (some (NavCommand.findInFiles s))
      | Option.none => node
    node.withTooltip (some (Tooltip.itemInfo (stripInfo n)))

end

/-- The provider's `statusFilter : Set<BlueprintStatus>`, represented by its
two membership tests (`has('formalized')`, `has('non-formalized')`), which
is all `filterNodesByStatus` reads from it. -/
structure StatusFilter where
  showFormalized : Bool
  showNonFormalized : Bool
deriving DecidableEq

/-- Source `BlueprintTreeDataProvider.filterNodesByStatus`.  Per node: in the
special mode (only non-formalized shown) a non-formalized node is kept with
filtered children and all its display fields copied, while a formalized
node with surviving descendants is kept as a pass-through copy (folder
icon, no command); in the default mode the same two branches are keyed on
`(isFormalized && showFormalized) || (!isFormalized && showNonFormalized)`. -/
def filterNodesByStatus (sf : StatusFilter) :
    List BlueprintNode → List BlueprintNode
  | [] => []
  | BlueprintNode.mk d c :: rest =>
    let head : List BlueprintNode :=
      if !sf.showFormalized && sf.showNonFormalized then
        if !d.isFormalized then
          let fc := filterNodesByStatus sf c
          [((((mkBlueprintNode d.label fc
                  (if fc.length > 0 then CollapsibleState.expanded
                   else CollapsibleState.none)
                  d.blueprintData).withDescription
                d.description).withIconPath d.iconPath).withCommand
              d.command).withTooltip d.tooltip]
        else if c.length > 0 then
          let fc := filterNodesByStatus sf c
          if fc.length > 0 then
            [(((mkBlueprintNode d.label fc CollapsibleState.expanded
                  d.blueprintData).withDescription
                d.description).withIconPath
                (some (IconPath.themeIcon "folder" false))).withTooltip
              d.tooltip]
          else []
        else []
      else
        if (d.isFormalized && sf.showFormalized) ||
            (!d.isFormalized && sf.showNonFormalized) then
          let fc := filterNodesByStatus sf c
          [((((mkBlueprintNode d.label fc
                  (if fc.length > 0 then CollapsibleState.expanded
                   else CollapsibleState.none)
                  d.blueprintData).withDescription
                d.description).withIconPath d.iconPath).withCommand
              d.command).withTooltip d.tooltip]
        else if c.length > 0 then
          let fc := filterNodesByStatus sf c
          if fc.length > 0 then
            [(((mkBlueprintNode d.label fc CollapsibleState.expanded
                  d.blueprintData).withDescription
                d.description).withIconPath
                (some (IconPath.themeIcon "folder" false))).withTooltip
              d.tooltip]
          else []
        else []
    head ++ filterNodesByStatus sf rest

/-- Outcome of attempting to read the JSONL data file: the file may be
missing (`fs.existsSync` false), unreadable (`fs.readFileSync` throws), or
readable with some text content. -/
inductive FileResult where
  | missing
  | unreadable
  | content (text : String)

/-- What `loadBlueprintTreeFromJsonl` produces: the optional node list it
returns (`undefined` is `none`) and whether it called
`vscode.window.showErrorMessage`. -/
structure LoadOutcome where
  nodes : Option (List BlueprintNode)
  errorShown : Bool

/-- Model of `fileContent.split(/\r?\n/)` over the character list: a `\n` terminates
a line, consuming one immediately preceding `\r`; a `\r` not followed by
`\n` is ordinary content. -/
def splitLinesAux : List Char → List Char → List (List Char)
  | [], acc => [acc.reverse]
  | '\r' :: '\n' :: rest, acc => acc.reverse :: splitLinesAux rest []
  | '\n' :: rest, acc => acc.reverse :: splitLinesAux rest []
  | c :: rest, acc => splitLinesAux rest (c :: acc)

def splitLines (s : String) : List String :=
  (splitLinesAux s.toList []).map fun cs => String.mk cs

/-- The whitespace characters relevant to `line.trim()` in this context
(space, tab, newline, carriage return, vertical tab, form feed). -/
def isJsSpace (c : Char) : Bool :=
  c = ' ' || c = '\t' || c = '\n' || c = '\r' ||
    c.toNat = 11 || c.toNat = 12

/-- Predicate: `line.trim().length > 0` is false exactly for all-whitespace lines. -/
def isBlankLine (s : String) : Bool :=
  s.toList.all isJsSpace

/-- Source `loadBlueprintTreeFromJsonl`, parametrized by the JSON-line parser.
`parse line = none` models both `JSON.parse` throwing (caught, mapped to
`null`, then removed by `.filter(obj => obj !== null)`) and a line whose
JSON value is `null`.  A missing file returns `undefined` without any error
message; a read failure is caught, an error message is shown, and
`undefined` is returned.  The function is total: no exception propagates. -/
def loadBlueprintTreeFromJsonl (parse : String → Option BlueprintItem) :
    FileResult → LoadOutcome
  | FileResult.missing => ⟨Option.none, false⟩
  | FileResult.unreadable => ⟨Option.none, true⟩
  | FileResult.content text =>
    let data :=
      (((splitLines text).filter fun l => !isBlankLine l).filterMap parse)
    ⟨some (buildTree data), false⟩

/-- The call sites in `activate`:
`const treeNodes = loadBlueprintTreeFromJsonl(...); if (treeNodes) {
blueprintTreeProvider.refresh(treeNodes); }` — the previously displayed
roots survive unless a node list was actually produced. -/
def refreshIfLoaded (oldRoots : List BlueprintNode) (r : LoadOutcome) :
    List BlueprintNode :=
  match r.nodes with
  | some ns => ns
  | Option.none => oldRoots

mutual

/-- Constructor-consistency invariant: `isFormalized` and `contextValue`
agree with what the `BlueprintNode` constructor derives from
`blueprintData`.  Every node the program ever creates goes through the
constructor, which establishes this. -/
def nodeWF : BlueprintNode → Bool
  | .mk d c =>
    (d.isFormalized == calcOpt d.blueprintData) &&
      (d.contextValue ==
        (if calcOpt d.blueprintData then "formalizedNode"
         else "unformalizedNode")) &&
      forestWF c

def forestWF : List BlueprintNode → Bool
  | [] => true
  | b :: bs => nodeWF b && forestWF bs

end

mutual

/-- Leaf invariant of built trees: a node without backing `blueprintData`
(a synthetic declaration leaf) has no children. -/
def nodeLeafOk : BlueprintNode → Bool
  | .mk d c =>
    (d.blueprintData.isSome || c.isEmpty) && forestLeafOk c

def forestLeafOk : List BlueprintNode → Bool
  | [] => true
  | b :: bs => nodeLeafOk b && forestLeafOk bs

end

mutual

/-- The transform that filtering with both statuses active actually
performs on a constructor-consistent tree: every node is kept with all its
fields, except that the collapsible state of a node with children becomes
`expanded` (and `none` otherwise). -/
def expandAll : BlueprintNode → BlueprintNode
  | .mk d c =>
    .mk
      { d with
        collapsibleState :=
          if c.length > 0 then CollapsibleState.expanded
          else CollapsibleState.none }
      (expandAllForest c)

def expandAllForest : List BlueprintNode → List BlueprintNode
  | [] => []
  | b :: bs => expandAll b :: expandAllForest bs

end

/-- Node `b` occurs somewhere in the forest `ns` (as a root or as a descendant). -/
inductive OccursIn : BlueprintNode → List BlueprintNode → Prop where
  | here {b : BlueprintNode} {ns : List BlueprintNode} :
      b ∈ ns → OccursIn b ns
  | inChild {b n : BlueprintNode} {ns : List BlueprintNode} :
      n ∈ ns → OccursIn b n.children → OccursIn b ns

/-- The node the matching branch of `filterNodesByStatus` pushes for an
input node with data `d` and children `c` (both the special-mode and the
default-mode copies of this branch are syntactically identical in the
source). -/
def matchedCopy (sf : StatusFilter) (d : NodeData)
    (c : List BlueprintNode) : BlueprintNode :=
  let fc := filterNodesByStatus sf c
  ((((mkBlueprintNode d.label fc
        (if fc.length > 0 then CollapsibleState.expanded
         else CollapsibleState.none)
        d.blueprintData).withDescription
      d.description).withIconPath d.iconPath).withCommand
    d.command).withTooltip d.tooltip

/-- The node the non-matching ("pass-through ancestor") branch of
`filterNodesByStatus` pushes when at least one descendant survives; note it
copies `description` and `tooltip`, replaces `iconPath` with the generic
folder icon, and does not copy `command`. -/
def passThroughCopy (sf : StatusFilter) (d : NodeData)
    (c : List BlueprintNode) : BlueprintNode :=
  let fc := filterNodesByStatus sf c
  (((mkBlueprintNode d.label fc CollapsibleState.expanded
        d.blueprintData).withDescription
      d.description).withIconPath
      (some (IconPath.themeIcon "folder" false))).withTooltip d.tooltip

/-- Whether a node's own status is in the active-status set. -/
def statusMatches (sf : StatusFilter) (d : NodeData) : Bool :=
  (d.isFormalized && sf.showFormalized) ||
    (!d.isFormalized && sf.showNonFormalized)

/-- A record whose `label` property is missing (`undefined`). -/
def itemNoLabel : BlueprintItem :=
  .mk LabelField.absent Option.none Option.none Option.none Option.none
    Option.none Option.none Option.none false false

/-- Record `{label:"b", stmt_type:"lemma", leanok:true}`. -/
def itemLeanokChild : BlueprintItem :=
  .mk (LabelField.str "b") Option.none (some "lemma") Option.none Option.none
    Option.none Option.none Option.none true false

/-- Record `{label:"a", stmt_type:"theorem", children:[itemLeanokChild]}`. -/
def itemParent : BlueprintItem :=
  .mk (LabelField.str "a") Option.none (some "theorem") Option.none
    (some [itemLeanokChild]) Option.none Option.none Option.none false false

/-- Record `{label:"g", stmt_type:"lemma"}` (not formalized). -/
def itemGrandchild : BlueprintItem :=
  .mk (LabelField.str "g") Option.none (some "lemma") Option.none Option.none
    Option.none Option.none Option.none false false

/-- Record `{label:"c", stmt_type:"lemma", leanok:true, children:[itemGrandchild]}`. -/
def itemMidChild : BlueprintItem :=
  .mk (LabelField.str "c") Option.none (some "lemma") Option.none
    (some [itemGrandchild]) Option.none Option.none Option.none true false

/-- Record `{label:"r", stmt_type:"theorem", leanok:true, children:[itemMidChild]}`. -/
def itemRoot : BlueprintItem :=
  .mk (LabelField.str "r") Option.none (some "theorem") Option.none
    (some [itemMidChild]) Option.none Option.none Option.none true false

/-- Entry `{full_name:"foo.bar", real_file:"/p/Foo.lean", range:{start:{line:41}}}`. -/
def declFoo : LeanDecl :=
  ⟨"foo.bar", some "/p/Foo.lean", some ⟨some ⟨some 41⟩⟩⟩

/-- Record `{label:"thm1", stmt_type:"theorem", lean_declarations:[declFoo]}`:
formalized precisely because of its linked declaration. -/
def itemWithDecl : BlueprintItem :=
  .mk (LabelField.str "thm1") Option.none (some "theorem") Option.none
    Option.none Option.none (some [declFoo]) Option.none false false

/-- The single node that filtering `buildTree [itemWithDecl]` with only
`Formalized` active produces: the statement node survives (it is
formalized), its declaration leaf child does not. -/
def c10node : BlueprintNode :=
  .mk
    { label := "thm1"
      collapsibleState := CollapsibleState.none
      blueprintData := some itemWithDecl
      isFormalized := true
      contextValue := "formalizedNode"
      iconPath := some (IconPath.themeIcon "check" false)
      description := Option.none
      command := some (NavCommand.findInFiles "thm1")
      tooltip := some (Tooltip.itemInfo (stripInfo itemWithDecl)) }
    []

/-- Data of a non-formalized leaf node, as the constructor would produce it. -/
def demoLeafData : NodeData :=
  { label := "leaf"
    collapsibleState := CollapsibleState.none
    blueprintData := Option.none
    isFormalized := false
    contextValue := "unformalizedNode"
    iconPath := Option.none
    description := Option.none
    command := Option.none
    tooltip := Option.none }

/-- Data of a formalized parent node. -/
def demoParentData : NodeData :=
  { label := "par"
    collapsibleState := CollapsibleState.collapsed
    blueprintData := some itemLeanokChild
    isFormalized := true
    contextValue := "formalizedNode"
    iconPath := some (IconPath.themeIcon "check" false)
    description := Option.none
    command := Option.none
    tooltip := Option.none }

@[simp]
theorem BlueprintNode.data_mk (d : NodeData) (c : List BlueprintNode) :
    (BlueprintNode.mk d c).data = d := rfl

@[simp]
theorem BlueprintNode.children_mk (d : NodeData) (c : List BlueprintNode) :
    (BlueprintNode.mk d c).children = c := rfl

@[simp]
theorem BlueprintNode.withDescription_data (b : BlueprintNode)
    (v : Option String) :
    (b.withDescription v).data = { b.data with description := v } := by
  cases b; rfl

@[simp]
theorem BlueprintNode.withDescription_children (b : BlueprintNode)
    (v : Option String) : (b.withDescription v).children = b.children := by
  cases b; rfl

@[simp]
theorem BlueprintNode.withIconPath_data (b : BlueprintNode)
    (v : Option IconPath) :
    (b.withIconPath v).data = { b.data with iconPath := v } := by
  cases b; rfl

@[simp]
theorem BlueprintNode.withIconPath_children (b : BlueprintNode)
    (v : Option IconPath) : (b.withIconPath v).children = b.children := by
  cases b; rfl

@[simp]
theorem BlueprintNode.withCommand_data (b : BlueprintNode)
    (v : Option NavCommand) :
    (b.withCommand v).data = { b.data with command := v } := by
  cases b; rfl

@[simp]
theorem BlueprintNode.withCommand_children (b : BlueprintNode)
    (v : Option NavCommand) : (b.withCommand v).children = b.children := by
  cases b; rfl

@[simp]
theorem BlueprintNode.withTooltip_data (b : BlueprintNode)
    (v : Option Tooltip) :
    (b.withTooltip v).data = { b.data with tooltip := v } := by
  cases b; rfl

@[simp]
theorem BlueprintNode.withTooltip_children (b : BlueprintNode)
    (v : Option Tooltip) : (b.withTooltip v).children = b.children := by
  cases b; rfl


@[simp]
theorem filterNodes_nil (sf : StatusFilter) :
    filterNodesByStatus sf [] = [] := by
  simp [filterNodesByStatus]

theorem matchedCopy_eq (sf : StatusFilter) (d : NodeData)
    (c : List BlueprintNode) :
    matchedCopy sf d c =
      BlueprintNode.mk
        { label := d.label
          collapsibleState :=
            if (filterNodesByStatus sf c).length > 0 then
              CollapsibleState.expanded
            else CollapsibleState.none
          blueprintData := d.blueprintData
          isFormalized := calcOpt d.blueprintData
          contextValue :=
            if calcOpt d.blueprintData then "formalizedNode"
            else "unformalizedNode"
          iconPath := d.iconPath
          description := d.description
          command := d.command
          tooltip := d.tooltip }
        (filterNodesByStatus sf c) := by
  simp only [matchedCopy, mkBlueprintNode]
  cases h : (filterNodesByStatus sf c) with
  | nil => simp [BlueprintNode.withDescription, BlueprintNode.withIconPath,
      BlueprintNode.withCommand, BlueprintNode.withTooltip]
  | cons x xs => simp [BlueprintNode.withDescription, BlueprintNode.withIconPath,
      BlueprintNode.withCommand, BlueprintNode.withTooltip]

theorem passThroughCopy_eq (sf : StatusFilter) (d : NodeData)
    (c : List BlueprintNode) :
    passThroughCopy sf d c =
      BlueprintNode.mk
        { label := d.label
          collapsibleState :=
            if (filterNodesByStatus sf c).length > 0 then
              CollapsibleState.expanded
            else CollapsibleState.none
          blueprintData := d.blueprintData
          isFormalized := calcOpt d.blueprintData
          contextValue :=
            if calcOpt d.blueprintData then "formalizedNode"
            else "unformalizedNode"
          iconPath := some (IconPath.themeIcon "folder" false)
          description := d.description
          command := Option.none
          tooltip := d.tooltip }
        (filterNodesByStatus sf c) := by
  simp only [passThroughCopy, mkBlueprintNode]
  cases h : (filterNodesByStatus sf c) with
  | nil => simp [BlueprintNode.withDescription, BlueprintNode.withIconPath,
      BlueprintNode.withTooltip]
  | cons x xs => simp [BlueprintNode.withDescription, BlueprintNode.withIconPath,
      BlueprintNode.withTooltip]

/-- One-step characterization of `filterNodesByStatus`: the special mode
(`!showFormalized && showNonFormalized`) and the default mode collapse to
the same three cases, keyed on whether the node's own status matches. -/
theorem filterNodes_cons (sf : StatusFilter) (d : NodeData)
    (c rest : List BlueprintNode) :
    filterNodesByStatus sf (BlueprintNode.mk d c :: rest) =
      (if statusMatches sf d then [matchedCopy sf d c]
       else if (filterNodesByStatus sf c).length > 0 then
         [passThroughCopy sf d c]
       else []) ++ filterNodesByStatus sf rest := by
  rcases sf with ⟨shF, shNF⟩
  cases shF <;> cases shNF <;>
    cases hF : d.isFormalized <;>
      simp only [filterNodesByStatus, statusMatches, hF, matchedCopy,
        passThroughCopy, Bool.not_true, Bool.not_false, Bool.true_and,
        Bool.false_and, Bool.and_true, Bool.and_false, Bool.false_or,
        Bool.or_false, Bool.true_or, Bool.or_true, if_true, if_false,
        Bool.true_and, ite_true, ite_false] <;>
    cases c <;>
      simp [filterNodesByStatus]

theorem filterNodes_append (sf : StatusFilter)
    (xs ys : List BlueprintNode) :
    filterNodesByStatus sf (xs ++ ys) =
      filterNodesByStatus sf xs ++ filterNodesByStatus sf ys := by
  induction xs with
  | nil => simp
  | cons x xs ih =>
    cases x with
    | mk d c =>
      rw [List.cons_append, filterNodes_cons, filterNodes_cons, ih,
        List.append_assoc]

/-- Lemma: `buildTree` is the `filter`-then-`map` of the source, in closed form. -/
theorem buildTree_eq_filterMap (l : List BlueprintItem) :
    buildTree l =
      (l.filter fun n => !(n.label == LabelField.null)).map buildNode := by
  induction l with
  | nil => simp [buildTree]
  | cons n rest ih =>
    by_cases h : n.label = LabelField.null
    · simp [buildTree, h, ih]
    · simp [buildTree, h, ih]

/-- Lemma: `declLeafNodes` in closed form via `Option.map`. -/
theorem declLeafNodes_eq (ds : List LeanDecl) :
    declLeafNodes ds =
      ds.filterMap fun d =>
        (declTarget d).map fun t => mkDeclLeaf d.full_name t.1 t.2 := by
  unfold declLeafNodes
  congr 1
  funext d
  cases h : declTarget d with
  | none => simp [h]
  | some t => cases t; simp [h]

@[simp]
theorem forestWF_nil : forestWF [] = true := by simp [forestWF]

theorem forestWF_cons (b : BlueprintNode) (bs : List BlueprintNode) :
    forestWF (b :: bs) = (nodeWF b && forestWF bs) := by
  simp [forestWF]

theorem forestWF_append (xs ys : List BlueprintNode) :
    forestWF (xs ++ ys) = (forestWF xs && forestWF ys) := by
  induction xs with
  | nil => simp
  | cons x xs ih => simp [forestWF_cons, ih, Bool.and_assoc]

theorem nodeWF_mk (d : NodeData) (c : List BlueprintNode) :
    nodeWF (BlueprintNode.mk d c) =
      ((d.isFormalized == calcOpt d.blueprintData) &&
        (d.contextValue ==
          (if calcOpt d.blueprintData then "formalizedNode"
           else "unformalizedNode")) &&
        forestWF c) := by
  simp [nodeWF]

@[simp]
theorem forestLeafOk_nil : forestLeafOk [] = true := by simp [forestLeafOk]

theorem forestLeafOk_cons (b : BlueprintNode) (bs : List BlueprintNode) :
    forestLeafOk (b :: bs) = (nodeLeafOk b && forestLeafOk bs) := by
  simp [forestLeafOk]

theorem forestLeafOk_append (xs ys : List BlueprintNode) :
    forestLeafOk (xs ++ ys) = (forestLeafOk xs && forestLeafOk ys) := by
  induction xs with
  | nil => simp
  | cons x xs ih => simp [forestLeafOk_cons, ih, Bool.and_assoc]

theorem nodeLeafOk_mk (d : NodeData) (c : List BlueprintNode) :
    nodeLeafOk (BlueprintNode.mk d c) =
      ((d.blueprintData.isSome || c.isEmpty) && forestLeafOk c) := by
  simp [nodeLeafOk]

theorem declLeafNodes_forestWF (ds : List LeanDecl) :
    forestWF (declLeafNodes ds) = true := by
  induction ds with
  | nil => simp [declLeafNodes]
  | cons d ds ih =>
    simp only [declLeafNodes, List.filterMap_cons] at ih ⊢
    cases h : declTarget d with
    | none => simpa using ih
    | some t =>
      cases t
      simp only [forestWF_cons, ih, Bool.and_true]
      simp [nodeWF, mkDeclLeaf, mkBlueprintNode, calcOpt,
        BlueprintNode.withCommand, BlueprintNode.withTooltip, forestWF]

theorem declLeafNodes_forestLeafOk (ds : List LeanDecl) :
    forestLeafOk (declLeafNodes ds) = true := by
  induction ds with
  | nil => simp [declLeafNodes]
  | cons d ds ih =>
    simp only [declLeafNodes, List.filterMap_cons] at ih ⊢
    cases h : declTarget d with
    | none => simpa using ih
    | some t =>
      cases t
      simp only [forestLeafOk_cons, ih, Bool.and_true]
      simp [nodeLeafOk, mkDeclLeaf, mkBlueprintNode,
        BlueprintNode.withCommand, BlueprintNode.withTooltip, forestLeafOk]

theorem buildNode_children (n : BlueprintItem) :
    (buildNode n).children =
      (match n.proof with
        | some p => buildTree [p]
        | Option.none => []) ++
      (match n.children with
        | some cs => buildTree cs
        | Option.none => []) ++
      (match n.lean_declarations with
        | some ds => declLeafNodes ds
        | Option.none => []) := by
  cases n with
  | mk lbl title st pt ch pf decls names ok fp =>
    rcases pf with _ | p <;> rcases ch with _ | cs <;>
      rcases decls with _ | ds <;> rcases names with _ | ⟨_ | ⟨x, xs⟩⟩ <;>
        cases h : lbl.truthyStr <;>
          simp [buildNode, mkBlueprintNode, h, BlueprintItem.proof,
            BlueprintItem.children, BlueprintItem.lean_declarations]

theorem buildNode_data (n : BlueprintItem) :
    (buildNode n).data =
      { label :=
          (jsOrStr n.title
            (jsOrStr n.label.truthyStr (jsOrStr n.stmt_type n.processed_text))).getD
            "Item"
        collapsibleState :=
          if (buildNode n).children.length > 0 then CollapsibleState.collapsed
          else CollapsibleState.none
        blueprintData := some n
        isFormalized := calculateFormalizationStatus n
        contextValue :=
          if calculateFormalizationStatus n then "formalizedNode"
          else "unformalizedNode"
        iconPath :=
          if strTruthy n.stmt_type then
            some (if calculateFormalizationStatus n then
                IconPath.themeIcon "check" false
              else IconPath.themeIcon "circle-outline" true)
          else Option.none
        description :=
          match n.lean_names with
          | some (x :: xs) =>
            some ("Lean: " ++ String.intercalate ", " (x :: xs))
          | _ => Option.none
        command :=
          match n.label.truthyStr with
          | some s => some (NavCommand.findInFiles s)
          | Option.none => Option.none
        tooltip := some (Tooltip.itemInfo (stripInfo n)) } := by
  cases n with
  | mk lbl title st pt ch pf decls names ok fp =>
    rcases pf with _ | p <;> rcases ch with _ | cs <;>
      rcases decls with _ | ds <;> rcases names with _ | ⟨_ | ⟨x, xs⟩⟩ <;>
        cases h : lbl.truthyStr <;>
          simp [buildNode, mkBlueprintNode, h, calcOpt, BlueprintItem.label,
            BlueprintItem.title, BlueprintItem.stmt_type,
            BlueprintItem.processed_text, BlueprintItem.proof,
            BlueprintItem.children, BlueprintItem.lean_declarations,
            BlueprintItem.lean_names] <;>
            (try (intro h2; simp [h2])) <;>
            (try (intro h3; simp [h3])) <;>
            (try (intro h4; simp [h4]))

theorem nodeWF_eq (b : BlueprintNode) :
    nodeWF b =
      ((b.data.isFormalized == calcOpt b.data.blueprintData) &&
        (b.data.contextValue ==
          (if calcOpt b.data.blueprintData then "formalizedNode"
           else "unformalizedNode")) &&
        forestWF b.children) := by
  cases b; simp [nodeWF]

theorem nodeLeafOk_eq (b : BlueprintNode) :
    nodeLeafOk b =
      ((b.data.blueprintData.isSome || b.children.isEmpty) &&
        forestLeafOk b.children) := by
  cases b; simp [nodeLeafOk]

theorem buildNode_nodeWF : ∀ n, nodeWF (buildNode n) = true := by
  refine buildNode.induct (fun l => forestWF (buildTree l) = true)
    (fun n => nodeWF (buildNode n) = true) ?_ ?_ ?_ ?_
  · simp [buildTree]
  · intro n rest h ih
    simp [buildTree, h, ih]
  · intro n rest h ih1 ih2
    simp [buildTree, h, forestWF_cons, ih1, ih2]
  · intro lbl title st pt ch pf decls names ok fp hpf hch
    rw [nodeWF_eq, buildNode_data, buildNode_children]
    rcases pf with _ | p <;> rcases ch with _ | cs <;>
      simp_all [calcOpt, forestWF_append, declLeafNodes_forestWF,
        BlueprintItem.proof, BlueprintItem.children,
        BlueprintItem.lean_declarations] <;>
      (cases decls <;> simp [declLeafNodes_forestWF])

theorem buildTree_forestWF (l : List BlueprintItem) :
    forestWF (buildTree l) = true := by
  induction l with
  | nil => simp [buildTree]
  | cons n rest ih =>
    by_cases h : n.label = LabelField.null
    · simp [buildTree, h, ih]
    · simp [buildTree, h, forestWF_cons, buildNode_nodeWF, ih]

theorem buildNode_nodeLeafOk : ∀ n, nodeLeafOk (buildNode n) = true := by
  refine buildNode.induct (fun l => forestLeafOk (buildTree l) = true)
    (fun n => nodeLeafOk (buildNode n) = true) ?_ ?_ ?_ ?_
  · simp [buildTree]
  · intro n rest h ih
    simp [buildTree, h, ih]
  · intro n rest h ih1 ih2
    simp [buildTree, h, forestLeafOk_cons, ih1, ih2]
  · intro lbl title st pt ch pf decls names ok fp hpf hch
    rw [nodeLeafOk_eq, buildNode_data, buildNode_children]
    rcases pf with _ | p <;> rcases ch with _ | cs <;>
      simp_all [forestLeafOk_append, declLeafNodes_forestLeafOk,
        BlueprintItem.proof, BlueprintItem.children,
        BlueprintItem.lean_declarations] <;>
      (cases decls <;> simp [declLeafNodes_forestLeafOk])

theorem buildTree_forestLeafOk (l : List BlueprintItem) :
    forestLeafOk (buildTree l) = true := by
  induction l with
  | nil => simp [buildTree]
  | cons n rest ih =>
    by_cases h : n.label = LabelField.null
    · simp [buildTree, h, ih]
    · simp [buildTree, h, forestLeafOk_cons, buildNode_nodeLeafOk, ih]

theorem filter_singleton_matched (sf : StatusFilter) (d : NodeData)
    (c : List BlueprintNode)
    (hwfd : d.isFormalized = calcOpt d.blueprintData)
    (hm : statusMatches sf d = true)
    (hidem : filterNodesByStatus sf (filterNodesByStatus sf c) =
      filterNodesByStatus sf c) :
    filterNodesByStatus sf [matchedCopy sf d c] = [matchedCopy sf d c] := by
  have hm' : (calcOpt d.blueprintData && sf.showFormalized ||
      (!calcOpt d.blueprintData && sf.showNonFormalized)) = true := by
    simp only [statusMatches, hwfd] at hm
    exact hm
  rw [matchedCopy_eq, filterNodes_cons, filterNodes_nil, List.append_nil]
  simp only [statusMatches]
  rw [if_pos hm']
  rw [matchedCopy_eq]
  simp [hidem]

theorem filter_singleton_pass (sf : StatusFilter) (d : NodeData)
    (c : List BlueprintNode)
    (hm : statusMatches sf d = false)
    (hwfd : d.isFormalized = calcOpt d.blueprintData)
    (hidem : filterNodesByStatus sf (filterNodesByStatus sf c) =
      filterNodesByStatus sf c)
    (hne : (filterNodesByStatus sf c).length > 0) :
    filterNodesByStatus sf [passThroughCopy sf d c] =
      [passThroughCopy sf d c] := by
  have hm' : (calcOpt d.blueprintData && sf.showFormalized ||
      (!calcOpt d.blueprintData && sf.showNonFormalized)) = false := by
    simp only [statusMatches, hwfd] at hm
    exact hm
  rw [passThroughCopy_eq, filterNodes_cons, filterNodes_nil, List.append_nil]
  simp only [statusMatches]
  rw [if_neg (by simp [hm'])]
  rw [hidem]
  rw [if_pos hne]
  rw [passThroughCopy_eq]
  simp [hidem]

theorem filter_idem_wf (sf : StatusFilter) (ns : List BlueprintNode)
    (h : forestWF ns = true) :
    filterNodesByStatus sf (filterNodesByStatus sf ns) =
      filterNodesByStatus sf ns := by
  refine (filterNodesByStatus.induct sf
    (fun m => forestWF m = true →
      filterNodesByStatus sf (filterNodesByStatus sf m) =
        filterNodesByStatus sf m) ?_ ?_) ns h
  · intro _; simp
  · intro d c rest ihc ihrest hwf
    rw [forestWF_cons, Bool.and_eq_true] at hwf
    obtain ⟨hnode, hrest⟩ := hwf
    rw [nodeWF_eq, Bool.and_eq_true, Bool.and_eq_true] at hnode
    obtain ⟨⟨hisF, hctx⟩, hc⟩ := hnode
    simp only [BlueprintNode.data_mk, BlueprintNode.children_mk] at hisF hctx hc
    rw [beq_iff_eq] at hisF hctx
    have ihc' := ihc hc
    have ihrest' := ihrest hrest
    rw [filterNodes_cons, filterNodes_append, ihrest']
    congr 1
    by_cases hm : statusMatches sf d = true
    · rw [if_pos hm]
      exact filter_singleton_matched sf d c hisF hm ihc'
    · have hm0 : statusMatches sf d = false := by
        simpa using hm
      rw [if_neg (by simp [hm0])]
      by_cases hne : (filterNodesByStatus sf c).length > 0
      · rw [if_pos hne]
        exact filter_singleton_pass sf d c hm0 hisF ihc' hne
      · rw [if_neg hne]
        simp

theorem expandAllForest_length (ns : List BlueprintNode) :
    (expandAllForest ns).length = ns.length := by
  induction ns with
  | nil => simp [expandAllForest]
  | cons b bs ih => simp [expandAllForest, ih]

theorem filter_both_eq_expandAll (ns : List BlueprintNode)
    (h : forestWF ns = true) :
    filterNodesByStatus ⟨true, true⟩ ns = expandAllForest ns := by
  refine (filterNodesByStatus.induct ⟨true, true⟩
    (fun m => forestWF m = true →
      filterNodesByStatus ⟨true, true⟩ m = expandAllForest m) ?_ ?_) ns h
  · intro _; simp [expandAllForest]
  · intro d c rest ihc ihrest hwf
    rw [forestWF_cons, Bool.and_eq_true] at hwf
    obtain ⟨hnode, hrest⟩ := hwf
    rw [nodeWF_eq, Bool.and_eq_true, Bool.and_eq_true] at hnode
    obtain ⟨⟨hisF, hctx⟩, hc⟩ := hnode
    simp only [BlueprintNode.data_mk, BlueprintNode.children_mk] at hisF hctx hc
    rw [beq_iff_eq] at hisF hctx
    have ihc' := ihc hc
    have ihrest' := ihrest hrest
    rw [filterNodes_cons]
    have hm : statusMatches ⟨true, true⟩ d = true := by
      cases hd : d.isFormalized <;> simp [statusMatches, hd]
    rw [if_pos hm, matchedCopy_eq, ihc', ihrest']
    show _ :: _ = expandAllForest (BlueprintNode.mk d c :: rest)
    rw [expandAllForest, expandAll]
    have hctx' : d.contextValue =
        (if d.isFormalized = true then "formalizedNode"
         else "unformalizedNode") := by
      rw [hisF]; exact hctx
    rw [expandAllForest_length, ← hisF, ← hctx']
    simp

theorem OccursIn_nil (b : BlueprintNode) : ¬ OccursIn b [] := by
  intro h
  cases h with
  | here hm => simp at hm
  | inChild hm _ => simp at hm

theorem OccursIn_append (b : BlueprintNode) (xs ys : List BlueprintNode) :
    OccursIn b (xs ++ ys) ↔ OccursIn b xs ∨ OccursIn b ys := by
  constructor
  · intro h
    cases h with
    | here hm =>
      rcases List.mem_append.mp hm with h' | h'
      · exact Or.inl (OccursIn.here h')
      · exact Or.inr (OccursIn.here h')
    | inChild hm hocc =>
      rcases List.mem_append.mp hm with h' | h'
      · exact Or.inl (OccursIn.inChild h' hocc)
      · exact Or.inr (OccursIn.inChild h' hocc)
  · intro h
    rcases h with h | h
    · cases h with
      | here hm => exact OccursIn.here (List.mem_append.mpr (Or.inl hm))
      | inChild hm hocc =>
        exact OccursIn.inChild (List.mem_append.mpr (Or.inl hm)) hocc
    · cases h with
      | here hm => exact OccursIn.here (List.mem_append.mpr (Or.inr hm))
      | inChild hm hocc =>
        exact OccursIn.inChild (List.mem_append.mpr (Or.inr hm)) hocc

theorem OccursIn_singleton (b x : BlueprintNode) :
    OccursIn b [x] ↔ b = x ∨ OccursIn b x.children := by
  constructor
  · intro h
    cases h with
    | here hm => exact Or.inl (List.mem_singleton.mp hm)
    | inChild hm hocc =>
      rw [List.mem_singleton.mp hm] at hocc
      exact Or.inr hocc
  · intro h
    rcases h with h | h
    · exact OccursIn.here (h ▸ List.mem_singleton_self x)
    · exact OccursIn.inChild (List.mem_singleton_self x) h

theorem filterF_occurs_has_data :
    ∀ ns, forestWF ns = true → forestLeafOk ns = true →
      ∀ b, OccursIn b (filterNodesByStatus ⟨true, false⟩ ns) →
        b.data.blueprintData.isSome = true := by
  refine filterNodesByStatus.induct ⟨true, false⟩
    (fun m => forestWF m = true → forestLeafOk m = true →
      ∀ b, OccursIn b (filterNodesByStatus ⟨true, false⟩ m) →
        b.data.blueprintData.isSome = true) ?_ ?_
  · intro _ _ b hb
    rw [filterNodes_nil] at hb
    exact absurd hb (OccursIn_nil b)
  · intro d c rest ihc ihrest hwf hlf b hb
    rw [forestWF_cons, Bool.and_eq_true] at hwf
    obtain ⟨hnode, hrest⟩ := hwf
    rw [nodeWF_eq, Bool.and_eq_true, Bool.and_eq_true] at hnode
    obtain ⟨⟨hisF, hctx⟩, hc⟩ := hnode
    simp only [BlueprintNode.data_mk, BlueprintNode.children_mk] at hisF hctx hc
    rw [beq_iff_eq] at hisF hctx
    rw [forestLeafOk_cons, Bool.and_eq_true] at hlf
    obtain ⟨hlnode, hlrest⟩ := hlf
    rw [nodeLeafOk_eq, Bool.and_eq_true] at hlnode
    simp only [BlueprintNode.data_mk, BlueprintNode.children_mk] at hlnode
    obtain ⟨hleaf, hlc⟩ := hlnode
    rw [filterNodes_cons, OccursIn_append] at hb
    rcases hb with hb | hb
    · by_cases hm : statusMatches ⟨true, false⟩ d = true
      · rw [if_pos hm] at hb
        rw [OccursIn_singleton] at hb
        rcases hb with rfl | hb
        · rw [matchedCopy_eq]
          simp only [BlueprintNode.data_mk]
          have hdF : d.isFormalized = true := by
            simpa [statusMatches] using hm
          rw [hdF] at hisF
          cases hbd : d.blueprintData with
          | none => rw [hbd] at hisF; simp [calcOpt] at hisF
          | some x => simp
        · rw [matchedCopy_eq] at hb
          simp only [BlueprintNode.children_mk] at hb
          exact ihc hc hlc b hb
      · rw [if_neg hm] at hb
        by_cases hne : (filterNodesByStatus ⟨true, false⟩ c).length > 0
        · rw [if_pos hne] at hb
          rw [OccursIn_singleton] at hb
          rcases hb with rfl | hb
          · rw [passThroughCopy_eq]
            simp only [BlueprintNode.data_mk]
            cases hcc : c with
            | nil => rw [hcc] at hne; simp at hne
            | cons y ys =>
              rw [hcc] at hleaf
              simpa using hleaf
          · rw [passThroughCopy_eq] at hb
            simp only [BlueprintNode.children_mk] at hb
            exact ihc hc hlc b hb
        · rw [if_neg hne] at hb
          exact absurd hb (OccursIn_nil b)
    · exact ihrest hrest hlrest b hb

/-- C1: for every blueprint item, the derived `isFormalized` flag of the
node built for it is true if and only if the item's `leanok` flag is true,
or its `fully_proved` flag is true, or its `lean_declarations` sequence is
non-empty; the classification is computed by the node constructor as a pure
function of the item. -/
theorem claim1_classifier_correct (i : BlueprintItem) :
    ((buildNode i).isFormalized = true ↔
      (i.leanok = true ∨ i.fully_proved = true ∨
        i.lean_declarations.getD [] ≠ []))
  ∧ ∀ (l : String) (c : List BlueprintNode) (s : CollapsibleState),
      (mkBlueprintNode l c s (some i)).isFormalized =
        calculateFormalizationStatus i := by
  constructor
  · rw [BlueprintNode.isFormalized, buildNode_data]
    simp only [calculateFormalizationStatus, Bool.or_eq_true]
    cases h : i.lean_declarations with
    | none => simp
    | some ds => simp [List.length_pos, or_assoc]
  · intro l c s
    simp [mkBlueprintNode, BlueprintNode.isFormalized, calcOpt]

/-- C2 counterexample: a record whose `label` property is absent (not
explicitly `null`) is NOT excluded — `buildTree` creates a node for it,
because the source filter is the strict test `n.label !== null`. -/
theorem claim2_counterexample :
    itemNoLabel.label = LabelField.absent ∧
      (buildTree [itemNoLabel]).length = 1 := by
  constructor
  · rfl
  · simp [buildTree, itemNoLabel, BlueprintItem.label]

/-- C2 (amended): `buildTree` drops exactly the records whose `label` field
is literally `null` and builds one node per remaining record in order;
records with an absent `label` are kept.  Since `buildNode` re-runs
`buildTree` on the `proof` and `children` entries, the same rule applies at
every nested level. -/
theorem claim2_amended_drop_null_label (l : List BlueprintItem) :
    buildTree l =
      (l.filter fun n => !(n.label == LabelField.null)).map buildNode :=
  buildTree_eq_filterMap l

/-- C9: the JSONL loader drops unparsable and blank lines individually and
returns exactly the successfully parsed non-blank lines (it is a total
function, so no exception propagates); a missing file yields no data and no
error report; an unreadable file yields an error report and no data; and in
both no-data cases the previously displayed roots are left intact by
`activate`'s `if (treeNodes) refresh` guard. -/
theorem claim9_loader_robustness (parse : String → Option BlueprintItem)
    (text : String) (old : List BlueprintNode) :
    ((loadBlueprintTreeFromJsonl parse FileResult.missing).nodes =
        Option.none
      ∧ (loadBlueprintTreeFromJsonl parse FileResult.missing).errorShown =
        false
      ∧ refreshIfLoaded old (loadBlueprintTreeFromJsonl parse
          FileResult.missing) = old)
  ∧ ((loadBlueprintTreeFromJsonl parse FileResult.unreadable).nodes =
        Option.none
      ∧ (loadBlueprintTreeFromJsonl parse FileResult.unreadable).errorShown =
        true
      ∧ refreshIfLoaded old (loadBlueprintTreeFromJsonl parse
          FileResult.unreadable) = old)
  ∧ ((loadBlueprintTreeFromJsonl parse (FileResult.content text)).nodes =
        some (buildTree
          (((splitLines text).filter fun l => !isBlankLine l).filterMap
            parse))
      ∧ (loadBlueprintTreeFromJsonl parse
          (FileResult.content text)).errorShown = false) := by
  refine ⟨⟨rfl, rfl, rfl⟩, ⟨rfl, rfl, rfl⟩, rfl, rfl⟩

/-- C3: for an item carrying `lean_declarations`, the built node's children
end with exactly one synthetic leaf per entry passing the file/line guard
(entries failing the guard are skipped while the parent node is still
built), and each such leaf has display text `"Lean: " + full_name`, no
children, is never expandable, and navigates to `real_file` at one-based
line `range.start.line + 1`. -/
theorem claim3_decl_leaves (n : BlueprintItem) (ds : List LeanDecl)
    (h : n.lean_declarations = some ds) :
    (∃ pre, (buildNode n).children = pre ++ declLeafNodes ds)
  ∧ (declLeafNodes ds).length =
      (ds.filter fun d => (declTarget d).isSome).length
  ∧ ∀ (d : LeanDecl) (f : String) (ln : Int),
      declTarget d = some (f, ln) →
        (mkDeclLeaf d.full_name f ln).data.label = "Lean: " ++ d.full_name
        ∧ (mkDeclLeaf d.full_name f ln).children = []
        ∧ (mkDeclLeaf d.full_name f ln).data.collapsibleState =
            CollapsibleState.none
        ∧ (mkDeclLeaf d.full_name f ln).data.command =
            some (NavCommand.openFile f (ln + 1)) := by
  refine ⟨⟨_, by rw [buildNode_children, h]⟩, ?_, ?_⟩
  · clear h
    induction ds with
    | nil => simp [declLeafNodes]
    | cons d ds ih =>
      cases hd : declTarget d with
      | none => simp [declLeafNodes, List.filterMap_cons, hd] at ih ⊢; exact ih
      | some t =>
        cases t
        simp [declLeafNodes, List.filterMap_cons, hd] at ih ⊢
        exact ih
  · intro d f ln hd
    refine ⟨?_, ?_, ?_, ?_⟩ <;>
      simp [mkDeclLeaf, mkBlueprintNode]

/-- C3 witness: the scenario declaration entry
`{full_name:"foo.bar", real_file:"/p/Foo.lean", range:{start:{line:41}}}`
passes the guard and produces a leaf with text `"Lean: foo.bar"` and a
navigation target opening `/p/Foo.lean` at one-based line 42. -/
theorem claim3_decl_leaves_witness :
    itemWithDecl.lean_declarations = some [declFoo]
  ∧ declTarget declFoo = some ("/p/Foo.lean", 41)
  ∧ (mkDeclLeaf declFoo.full_name "/p/Foo.lean" 41).data.label =
      "Lean: foo.bar"
  ∧ (mkDeclLeaf declFoo.full_name "/p/Foo.lean" 41).data.command =
      some (NavCommand.openFile "/p/Foo.lean" 42) := by
  have h : itemWithDecl.lean_declarations = some [declFoo] := rfl
  have hd : declTarget declFoo = some ("/p/Foo.lean", 41) := by
    simp [declTarget, declFoo]
  have hc := (claim3_decl_leaves itemWithDecl [declFoo] h).2.2 declFoo
    "/p/Foo.lean" 41 hd
  exact ⟨h, hd, hc.1, hc.2.2.2⟩

/-- C4: the children of every built node are, in order: the nodes built
from the proof item (when present, itself subject to the null-label
filter), then the nodes built from the structural children in their
original input order, then one declaration leaf per qualifying
`lean_declarations` entry in original input order. -/
theorem claim4_children_order (n : BlueprintItem) :
    (buildNode n).children =
      (n.proof.elim []
        fun p => if p.label = LabelField.null then [] else [buildNode p]) ++
      ((n.children.getD []).filter
        fun c => !(c.label == LabelField.null)).map buildNode ++
      ((n.lean_declarations.getD []).filterMap
        fun d => (declTarget d).map
          fun t => mkDeclLeaf d.full_name t.1 t.2) := by
  rw [buildNode_children]
  congr 1
  · congr 1
    · cases hp : n.proof with
      | none => simp
      | some p =>
        simp only [Option.elim]
        by_cases h : p.label = LabelField.null
        · simp [buildTree, h]
        · simp [buildTree, h]
    · cases hc : n.children with
      | none => simp
      | some cs => simp [buildTree_eq_filterMap]
  · cases hd : n.lean_declarations with
    | none => simp
    | some ds => simp [declLeafNodes_eq]

/-- C5 counterexample: the claim says a surviving non-matching
("pass-through") node preserves its own navigation target, but the
pass-through branch does not copy `command`.  Concretely, the built node
for `itemParent` carries a find-in-files command for its label `"a"`, yet
after filtering with only `Formalized` active it survives as a
pass-through node (same label) with no command at all. -/
theorem claim5_counterexample :
    ((buildTree [itemParent]).map fun b => b.data.command) =
      [some (NavCommand.findInFiles "a")]
  ∧ ((filterNodesByStatus ⟨true, false⟩ (buildTree [itemParent])).map
        fun b => (b.data.label, b.data.command)) = [("a", Option.none)] := by
  constructor <;>
    simp [buildTree, buildNode, itemParent, itemLeanokChild,
      BlueprintItem.label, BlueprintItem.title, BlueprintItem.stmt_type,
      BlueprintItem.processed_text, BlueprintItem.children,
      BlueprintItem.proof, BlueprintItem.lean_declarations,
      BlueprintItem.lean_names, mkBlueprintNode, LabelField.truthyStr,
      jsOrStr, filterNodesByStatus, calcOpt, calculateFormalizationStatus,
      BlueprintItem.leanok, BlueprintItem.fully_proved, strTruthy, stripInfo,
      BlueprintNode.withDescription, BlueprintNode.withIconPath,
      BlueprintNode.withCommand, BlueprintNode.withTooltip]

/-- C5 (amended): per node, the filter keeps a status-matching node as a
copy with its recursively filtered children, all display fields (including
the navigation command) copied, marked non-expandable exactly when no child
survives; a non-matching node is kept only when at least one descendant
survives, as a pass-through copy that preserves its label, description and
tooltip and contains exactly the surviving children, but carries no
navigation command of its own and gets the generic folder icon; otherwise
the node and its subtree are dropped. -/
theorem claim5_amended_filter_cases (sf : StatusFilter) (d : NodeData)
    (c rest : List BlueprintNode) :
    (filterNodesByStatus sf (BlueprintNode.mk d c :: rest) =
      (if statusMatches sf d then [matchedCopy sf d c]
       else if (filterNodesByStatus sf c).length > 0 then
         [passThroughCopy sf d c]
       else []) ++ filterNodesByStatus sf rest)
  ∧ (matchedCopy sf d c).children = filterNodesByStatus sf c
  ∧ (matchedCopy sf d c).data.label = d.label
  ∧ (matchedCopy sf d c).data.description = d.description
  ∧ (matchedCopy sf d c).data.tooltip = d.tooltip
  ∧ (matchedCopy sf d c).data.command = d.command
  ∧ (matchedCopy sf d c).data.iconPath = d.iconPath
  ∧ (matchedCopy sf d c).data.collapsibleState =
      (if (filterNodesByStatus sf c).length > 0 then
        CollapsibleState.expanded
      else CollapsibleState.none)
  ∧ (passThroughCopy sf d c).children = filterNodesByStatus sf c
  ∧ (passThroughCopy sf d c).data.label = d.label
  ∧ (passThroughCopy sf d c).data.description = d.description
  ∧ (passThroughCopy sf d c).data.tooltip = d.tooltip
  ∧ (passThroughCopy sf d c).data.command = Option.none
  ∧ (passThroughCopy sf d c).data.iconPath =
      some (IconPath.themeIcon "folder" false) := by
  refine ⟨filterNodes_cons sf d c rest, ?_⟩
  rw [matchedCopy_eq, passThroughCopy_eq]
  simp

/-- C7 counterexample: filtering a built tree with both statuses active is
not literally the identity transform — a built node with children has
collapsible state `Collapsed`, while its filtered copy is `Expanded`. -/
theorem claim7_counterexample :
    ((buildTree [itemParent]).map fun b => b.data.collapsibleState) =
      [CollapsibleState.collapsed]
  ∧ ((filterNodesByStatus ⟨true, true⟩ (buildTree [itemParent])).map
        fun b => b.data.collapsibleState) = [CollapsibleState.expanded]
  ∧ filterNodesByStatus ⟨true, true⟩ (buildTree [itemParent]) ≠
      buildTree [itemParent] := by
  have h1 : ((buildTree [itemParent]).map
      fun b => b.data.collapsibleState) = [CollapsibleState.collapsed] := by
    simp [buildTree, buildNode, itemParent, itemLeanokChild,
      BlueprintItem.label, BlueprintItem.title, BlueprintItem.stmt_type,
      BlueprintItem.processed_text, BlueprintItem.children,
      BlueprintItem.proof, BlueprintItem.lean_declarations,
      BlueprintItem.lean_names, mkBlueprintNode, LabelField.truthyStr,
      jsOrStr, calcOpt, calculateFormalizationStatus, BlueprintItem.leanok,
      BlueprintItem.fully_proved, strTruthy, stripInfo,
      BlueprintNode.withDescription, BlueprintNode.withIconPath,
      BlueprintNode.withCommand, BlueprintNode.withTooltip]
  have h2 : ((filterNodesByStatus ⟨true, true⟩ (buildTree [itemParent])).map
      fun b => b.data.collapsibleState) = [CollapsibleState.expanded] := by
    simp [buildTree, buildNode, itemParent, itemLeanokChild,
      BlueprintItem.label, BlueprintItem.title, BlueprintItem.stmt_type,
      BlueprintItem.processed_text, BlueprintItem.children,
      BlueprintItem.proof, BlueprintItem.lean_declarations,
      BlueprintItem.lean_names, mkBlueprintNode, LabelField.truthyStr,
      jsOrStr, filterNodesByStatus, calcOpt, calculateFormalizationStatus,
      BlueprintItem.leanok, BlueprintItem.fully_proved, strTruthy, stripInfo,
      BlueprintNode.withDescription, BlueprintNode.withIconPath,
      BlueprintNode.withCommand, BlueprintNode.withTooltip]
  refine ⟨h1, h2, fun h => ?_⟩
  rw [h, h1] at h2
  simp at h2

/-- C7 (amended): filtering a built tree with both statuses active keeps
every node with its label, data, status, icon, command, description and
tooltip unchanged and preserves the tree structure; the only difference
from the identity is that every node with children comes back with
collapsible state `Expanded` (instead of the built `Collapsed`), and
childless nodes with `None`. -/
theorem claim7_amended_filter_both_expands (items : List BlueprintItem) :
    filterNodesByStatus ⟨true, true⟩ (buildTree items) =
      expandAllForest (buildTree items) :=
  filter_both_eq_expandAll (buildTree items) (buildTree_forestWF items)

/-- C6: when `NonFormalized` is the only active status, a formalized node
that survives does so only as a pass-through ancestor: it carries no
navigation command of its own, its icon is replaced by the generic folder
marker, and it contains exactly the surviving filtered children; in the
concrete root-child-grandchild chain where only the grandchild is
non-formalized, both retained ancestors appear with the folder icon and no
command and contain exactly the matching grandchild. -/
theorem claim6_passthrough_no_command :
    (∀ (d : NodeData) (c rest : List BlueprintNode),
      d.isFormalized = true →
      0 < (filterNodesByStatus ⟨false, true⟩ c).length →
      filterNodesByStatus ⟨false, true⟩ (BlueprintNode.mk d c :: rest) =
          passThroughCopy ⟨false, true⟩ d c ::
            filterNodesByStatus ⟨false, true⟩ rest
        ∧ (passThroughCopy ⟨false, true⟩ d c).data.command = Option.none
        ∧ (passThroughCopy ⟨false, true⟩ d c).data.iconPath =
            some (IconPath.themeIcon "folder" false)
        ∧ (passThroughCopy ⟨false, true⟩ d c).children =
            filterNodesByStatus ⟨false, true⟩ c)
  ∧ ((filterNodesByStatus ⟨false, true⟩ (buildTree [itemRoot])).map
        (fun b => (b.data.label, b.data.iconPath, b.data.command,
          b.children.map (fun b2 => (b2.data.label, b2.data.iconPath,
            b2.data.command,
            b2.children.map (fun b3 => (b3.data.label, b3.data.command)))))) =
      [("r", some (IconPath.themeIcon "folder" false), Option.none,
        [("c", some (IconPath.themeIcon "folder" false), Option.none,
          [("g", some (NavCommand.findInFiles "g"))])])]) := by
  constructor
  · intro d c rest hd hne
    have hm : statusMatches ⟨false, true⟩ d = false := by
      simp [statusMatches, hd]
    rw [filterNodes_cons, if_neg (by simp [hm]), if_pos hne]
    refine ⟨rfl, ?_⟩
    rw [passThroughCopy_eq]
    simp
  · simp [buildTree, buildNode, itemRoot, itemMidChild, itemGrandchild,
      BlueprintItem.label, BlueprintItem.title, BlueprintItem.stmt_type,
      BlueprintItem.processed_text, BlueprintItem.children,
      BlueprintItem.proof, BlueprintItem.lean_declarations,
      BlueprintItem.lean_names, mkBlueprintNode, LabelField.truthyStr,
      jsOrStr, filterNodesByStatus, calcOpt, calculateFormalizationStatus,
      BlueprintItem.leanok, BlueprintItem.fully_proved, strTruthy, stripInfo,
      BlueprintNode.withDescription, BlueprintNode.withIconPath,
      BlueprintNode.withCommand, BlueprintNode.withTooltip]

/-- C6 witness: a concrete formalized parent with one surviving
non-formalized child, instantiating the pass-through rule. -/
theorem claim6_passthrough_no_command_witness :
    demoParentData.isFormalized = true
  ∧ 0 < (filterNodesByStatus ⟨false, true⟩
      [BlueprintNode.mk demoLeafData []]).length
  ∧ (filterNodesByStatus ⟨false, true⟩
        (BlueprintNode.mk demoParentData
          [BlueprintNode.mk demoLeafData []] :: []) =
      passThroughCopy ⟨false, true⟩ demoParentData
          [BlueprintNode.mk demoLeafData []] ::
        filterNodesByStatus ⟨false, true⟩ []
    ∧ (passThroughCopy ⟨false, true⟩ demoParentData
        [BlueprintNode.mk demoLeafData []]).data.command = Option.none
    ∧ (passThroughCopy ⟨false, true⟩ demoParentData
        [BlueprintNode.mk demoLeafData []]).data.iconPath =
          some (IconPath.themeIcon "folder" false)
    ∧ (passThroughCopy ⟨false, true⟩ demoParentData
        [BlueprintNode.mk demoLeafData []]).children =
          filterNodesByStatus ⟨false, true⟩
            [BlueprintNode.mk demoLeafData []]) := by
  have h1 : demoParentData.isFormalized = true := rfl
  have h2 : 0 < (filterNodesByStatus ⟨false, true⟩
      [BlueprintNode.mk demoLeafData []]).length := by
    simp [filterNodesByStatus, demoLeafData, mkBlueprintNode, calcOpt,
      BlueprintNode.withDescription, BlueprintNode.withIconPath,
      BlueprintNode.withCommand, BlueprintNode.withTooltip]
  exact ⟨h1, h2, claim6_passthrough_no_command.1 demoParentData
    [BlueprintNode.mk demoLeafData []] [] h1 h2⟩

/-- C8: the status filter is idempotent on every constructor-consistent
tree (`forestWF` holds for every tree the program ever builds, since each
node goes through the `BlueprintNode` constructor): filtering an
already-filtered tree with the same active-status set returns it
unchanged. -/
theorem claim8_filter_idempotent (sf : StatusFilter)
    (ns : List BlueprintNode) (h : forestWF ns = true) :
    filterNodesByStatus sf (filterNodesByStatus sf ns) =
      filterNodesByStatus sf ns :=
  filter_idem_wf sf ns h

/-- C8 witness: idempotence applied to the tree built from `itemParent`
with only `NonFormalized` active. -/
theorem claim8_filter_idempotent_witness :
    forestWF (buildTree [itemParent]) = true
  ∧ filterNodesByStatus ⟨false, true⟩
        (filterNodesByStatus ⟨false, true⟩ (buildTree [itemParent])) =
      filterNodesByStatus ⟨false, true⟩ (buildTree [itemParent]) :=
  ⟨buildTree_forestWF [itemParent],
    claim8_filter_idempotent ⟨false, true⟩ (buildTree [itemParent])
      (buildTree_forestWF [itemParent])⟩

/-- C10: every synthetic declaration leaf is built without backing
blueprint data, so it is classified non-formalized and childless;
consequently, when `Formalized` is the only active status, no node without
backing blueprint data — in a built tree, exactly the declaration leaves —
occurs anywhere in the filtered tree. -/
theorem claim10_decl_leaves_dropped :
    (∀ (ds : List LeanDecl) (b : BlueprintNode), b ∈ declLeafNodes ds →
        b.isFormalized = false ∧ b.children = []
        ∧ b.data.blueprintData = Option.none)
  ∧ ∀ (items : List BlueprintItem) (b : BlueprintNode),
      OccursIn b (filterNodesByStatus ⟨true, false⟩ (buildTree items)) →
        b.data.blueprintData.isSome = true := by
  constructor
  · intro ds b hb
    simp only [declLeafNodes, List.mem_filterMap] at hb
    obtain ⟨d, _, hfd⟩ := hb
    cases hd : declTarget d with
    | none => rw [hd] at hfd; simp at hfd
    | some t =>
      cases t
      rw [hd] at hfd
      simp only [Option.some_inj] at hfd
      subst hfd
      refine ⟨?_, ?_, ?_⟩ <;>
        simp [mkDeclLeaf, mkBlueprintNode, BlueprintNode.isFormalized,
          calcOpt, BlueprintNode.withCommand, BlueprintNode.withTooltip]
  · intro items b hb
    exact filterF_occurs_has_data (buildTree items)
      (buildTree_forestWF items) (buildTree_forestLeafOk items) b hb

/-- C10 witness: the scenario item `itemWithDecl` is formalized precisely
because of its declaration `declFoo`; its leaf is non-formalized and
childless, and filtering the built tree with only `Formalized` active
yields exactly the statement node (with zero children), in which the
declaration leaf no longer occurs. -/
theorem claim10_decl_leaves_dropped_witness :
    mkDeclLeaf "foo.bar" "/p/Foo.lean" 41 ∈ declLeafNodes [declFoo]
  ∧ ((mkDeclLeaf "foo.bar" "/p/Foo.lean" 41).isFormalized = false
      ∧ (mkDeclLeaf "foo.bar" "/p/Foo.lean" 41).children = []
      ∧ (mkDeclLeaf "foo.bar" "/p/Foo.lean" 41).data.blueprintData =
          Option.none)
  ∧ OccursIn c10node
      (filterNodesByStatus ⟨true, false⟩ (buildTree [itemWithDecl]))
  ∧ c10node.data.blueprintData.isSome = true := by
  have hmem : mkDeclLeaf "foo.bar" "/p/Foo.lean" 41 ∈
      declLeafNodes [declFoo] := by
    simp [declLeafNodes, declFoo, declTarget]
  have heval : filterNodesByStatus ⟨true, false⟩
      (buildTree [itemWithDecl]) = [c10node] := by
    simp [buildTree, buildNode, itemWithDecl, declFoo, c10node,
      BlueprintItem.label, BlueprintItem.title, BlueprintItem.stmt_type,
      BlueprintItem.processed_text, BlueprintItem.children,
      BlueprintItem.proof, BlueprintItem.lean_declarations,
      BlueprintItem.lean_names, mkBlueprintNode, LabelField.truthyStr,
      jsOrStr, filterNodesByStatus, calcOpt, calculateFormalizationStatus,
      BlueprintItem.leanok, BlueprintItem.fully_proved, strTruthy, stripInfo,
      declLeafNodes, declTarget, mkDeclLeaf,
      BlueprintNode.withDescription, BlueprintNode.withIconPath,
      BlueprintNode.withCommand, BlueprintNode.withTooltip]
  have hocc : OccursIn c10node
      (filterNodesByStatus ⟨true, false⟩ (buildTree [itemWithDecl])) := by
    rw [heval]
    exact OccursIn.here (List.mem_singleton_self c10node)
  exact ⟨hmem, claim10_decl_leaves_dropped.1 [declFoo] _ hmem, hocc,
    claim10_decl_leaves_dropped.2 [itemWithDecl] c10node hocc⟩
